import Mathlib

/-!
Verification of the memvid CLI (src/src/main.rs) and the engine interface it
consumes.  The repository ships only the CLI; the engine (`memvid-core`) is an
external crate, so the engine operations below are modelled from the spec
(each such definition says so in its doc comment).  CLI-level definitions are
direct shallow embeddings of `main.rs`.
-/

namespace Memvid

/-- Byte strings are modelled as lists of naturals. -/
abbrev Bytes := List Nat

/-- Mirror of `memvid_core::PutOptions` as built by the CLI: an optional
title and an optional uri (main.rs lines 104-110, 124-127). -/
structure PutOptions where
  title : Option String := none
  uri : Option String := none
deriving Repr, DecidableEq

/-- Modelled from the spec (section 3, "Frame"): one immutable unit of stored
content with its commit-time id and metadata. -/
structure Frame where
  frame_id : Nat
  content : Bytes
  title : Option String
  uri : Option String
deriving Repr, DecidableEq

/-- Modelled from the spec (sections 4.1-4.2): the state of one open memory
file, with the committed frame log and the pending (appended but uncommitted)
puts.  `memvid-core` is not part of the repository sources. -/
structure State where
  committed : List Frame
  pending : List (Bytes × PutOptions)
deriving Repr, DecidableEq

/-- The state of a freshly created memory file. -/
def State.empty : State := ⟨[], []⟩

/-- Well-formedness: committed frame ids are exactly the positions of the
frames in the log (ids are assigned at commit time, strictly increasing from
zero, never reused - spec section 3). -/
def WF (s : State) : Prop :=
  s.committed.map Frame.frame_id = List.range s.committed.length

/-- Modelled from the spec (section 4.1, `append`): `put_bytes_with_options`
buffers a pending frame and returns its sequence number; nothing becomes
visible yet. -/
def put (s : State) (content : Bytes) (opts : PutOptions) : State × Nat :=
  (⟨s.committed, s.pending ++ [(content, opts)]⟩,
    s.committed.length + s.pending.length)

/-- Run a whole sequence of puts, keeping only the state. -/
def putMany (s : State) (xs : List (Bytes × PutOptions)) : State :=
  xs.foldl (fun st x => (put st x.1 x.2).1) s

/-- Frames produced by committing the pending list `ps` when `base` ids are
already taken: ids are assigned consecutively starting at `base`. -/
def commitFrames : Nat → List (Bytes × PutOptions) → List Frame
  | _, [] => []
  | base, (c, o) :: rest => ⟨base, c, o.title, o.uri⟩ :: commitFrames (base + 1) rest

/-- Modelled from the spec (section 4.2, `commit`): all pending frames become
visible atomically, receiving fresh consecutive frame ids; the committed ids
are returned. -/
def commit (s : State) : State × List Nat :=
  let fresh := commitFrames s.committed.length s.pending
  (⟨s.committed ++ fresh, []⟩, fresh.map Frame.frame_id)

/-- Modelled from the spec (section 4.1, `read`): look a committed frame up
by id; pending frames are invisible. -/
def read (s : State) (fid : Nat) : Option Frame :=
  s.committed.find? (fun f => f.frame_id == fid)

/- ### Lexical index and search engine (modelled from the spec) -/

/-- The CLI's `content.as_bytes()`: the text of a frame as bytes.  Characters
are modelled at codepoint granularity (exact for the ASCII inputs used by the
tests below). -/
def strBytes (s : String) : Bytes := s.data.map Char.toNat

/-- Split a byte string at spaces (byte 32), accumulating the current token
in reverse. -/
def splitSp : Bytes → Bytes → List Bytes
  | [], cur => [cur.reverse]
  | c :: rest, cur =>
      if c = 32 then cur.reverse :: splitSp rest [] else splitSp rest (c :: cur)

/-- Modelled from the spec (section 4.3): the normalized token list of a
text - whitespace-separated, empty tokens dropped. -/
def tokenize (b : Bytes) : List Bytes :=
  (splitSp b []).filter (fun t => ¬ t.isEmpty)

/-- Term frequency of token `t` in a content. -/
def tf (t : Bytes) (content : Bytes) : Nat := (tokenize content).count t

/-- Document frequency: number of committed frames whose content contains the
token. -/
def df (s : State) (t : Bytes) : Nat :=
  (s.committed.filter (fun f => decide (t ∈ tokenize f.content))).length

/-- Modelled from the spec (section 4.3): a deterministic term-frequency /
inverse-document-frequency style relevance score - each query term
contributes its frequency in the frame weighted by a factor that decreases
with the term's document frequency; no randomness. -/
def scoreFrame (s : State) (qts : List Bytes) (f : Frame) : Nat :=
  (qts.map (fun t => tf t f.content * (s.committed.length + 1 - df s t))).sum

/-- Mirror of `memvid_core::SearchRequest` as used by the CLI (main.rs lines
138-150; the cfg-gated `temporal` field is omitted). -/
structure SearchRequest where
  query : String
  top_k : Nat
  snippet_chars : Nat
  uri : Option String
  scope : Option String
  cursor : Option Nat
  as_of_frame : Option Nat
  as_of_ts : Option Nat
  no_sketch : Bool
deriving Repr, DecidableEq

/-- Mirror of a search hit: `(frame_id, title, score, text snippet, uri)`
(spec section 3, "Search Hit"; main.rs lines 155-163). -/
structure Hit where
  frame_id : Nat
  title : Option String
  score : Nat
  text : Bytes
  uri : Option String
deriving Repr, DecidableEq

/-- Ranking order on hits: higher score first, ties broken by descending
`frame_id` (spec section 4.3). -/
def hitLE (a b : Hit) : Prop :=
  b.score < a.score ∨ (b.score = a.score ∧ b.frame_id ≤ a.frame_id)

instance : DecidableRel hitLE := fun a b => by
  unfold hitLE
  exact inferInstance

instance : IsTotal Hit hitLE := by
  constructor
  intro a b
  unfold hitLE
  rcases lt_trichotomy a.score b.score with h | h | h
  · exact Or.inr (Or.inl h)
  · rcases Nat.le_total b.frame_id a.frame_id with hn | hn
    · exact Or.inl (Or.inr ⟨h.symm, hn⟩)
    · exact Or.inr (Or.inr ⟨h, hn⟩)
  · exact Or.inl (Or.inl h)

instance : IsTrans Hit hitLE := by
  constructor
  intro a b c hab hbc
  unfold hitLE at *
  rcases hab with h1 | ⟨h1, h1n⟩ <;> rcases hbc with h2 | ⟨h2, h2n⟩
  · exact Or.inl (h2.trans h1)
  · exact Or.inl (lt_of_eq_of_lt h2 h1)
  · exact Or.inl (lt_of_lt_of_eq h2 h1)
  · exact Or.inr ⟨h2.trans h1, Nat.le_trans h2n h1n⟩

/-- Modelled from the spec (section 4.5): candidate frames are filtered
against the as-of cutoff before results are materialized. -/
def applyAsOf (bound : Option Nat) (frames : List Frame) : List Frame :=
  match bound with
  | none => frames
  | some n => frames.filter (fun f => f.frame_id ≤ n)

/-- Modelled from the spec (section 4.3 uri_filter): scope candidates to a
uri when one is requested. -/
def applyUri (uri : Option String) (frames : List Frame) : List Frame :=
  match uri with
  | none => frames
  | some u => frames.filter (fun f => f.uri == some u)

/-- Modelled from the spec (sections 4.3 and 4.6): lexical search - resolve
the as-of and uri filters, keep candidates with a positive score, rank by
score (ties by descending frame id), truncate to `top_k`, and materialize
snippets truncated to `snippet_chars`. -/
def search (s : State) (req : SearchRequest) : List Hit :=
  let qts := tokenize (strBytes req.query)
  let cands := applyUri req.uri (applyAsOf req.as_of_frame s.committed)
  let scored := cands.filter (fun f => decide (0 < scoreFrame s qts f))
  let hits := scored.map (fun f =>
    Hit.mk f.frame_id f.title (scoreFrame s qts f) (f.content.take req.snippet_chars) f.uri)
  (List.insertionSort hitLE hits).take req.top_k

/-- Mirror of `memvid_core::TimelineQuery`: `limit` is `Option<NonZeroU64>`
(so zero is unrepresentable); the default has no limit (main.rs lines
192-193).  The as-of bound is modelled from the spec (section 4.5). -/
structure TimelineQuery where
  limit : Option Nat := none
  as_of_frame : Option Nat := none
deriving Repr, DecidableEq

/-- Mirror of a timeline entry: `{frame_id, uri, preview}` (main.rs lines
198-202). -/
structure TimelineEntry where
  frame_id : Nat
  uri : Option String
  preview : Bytes
deriving Repr, DecidableEq

/-- Modelled from the spec (section 4.5): timeline lists committed frames
most-recent-first, after filtering against the as-of cutoff; an absent limit
returns everything. -/
def timeline (s : State) (q : TimelineQuery) : List TimelineEntry :=
  let entries := ((applyAsOf q.as_of_frame s.committed).reverse).map
    (fun f => TimelineEntry.mk f.frame_id f.uri f.content)
  match q.limit with
  | none => entries
  | some k => entries.take k

/- ### Integrity verifier (modelled from the spec) -/

/-- Modelled from the spec (section 4.7): the per-frame content checksum.
Modelled as the byte sum, which detects any single-byte change. -/
def checksum (b : Bytes) : Nat := b.sum

/-- Modelled from the spec (section 4.7): the on-disk record of one committed
frame - its id, content bytes, and stored content checksum. -/
structure StoredFrame where
  frame_id : Nat
  content : Bytes
  stored_sum : Nat
deriving Repr, DecidableEq

/-- Modelled from the spec (section 6): the persisted memory file, a frame
log in commit order. -/
structure DiskFile where
  frames : List StoredFrame
deriving Repr, DecidableEq

/-- Whether a list of frame ids is strictly increasing. -/
def idsIncreasing : List Nat → Bool
  | [] => true
  | [_] => true
  | a :: b :: rest => a < b && idsIncreasing (b :: rest)

/-- Modelled from the spec (section 4.7, shallow mode): structural invariants
only - monotonic frame id sequence; content checksums are not consulted. -/
def shallowOk (f : DiskFile) : Bool :=
  idsIncreasing (f.frames.map StoredFrame.frame_id)

/-- Modelled from the spec (section 4.7, deep mode): structural invariants
plus a recomputed content checksum for every frame compared to the stored
one. -/
def deepOk (f : DiskFile) : Bool :=
  shallowOk f && f.frames.all (fun fr => checksum fr.content == fr.stored_sum)

/-- Verification report status (spec section 3, "Verification Report"). -/
inductive VerifyStatus
  | ok
  | degraded
  | corrupt
deriving Repr, DecidableEq

/-- Modelled from the spec (section 4.7, `verify(path, deep)`): produce a
fresh report from the file contents alone. -/
def verify (f : DiskFile) (deep : Bool) : VerifyStatus :=
  if (if deep then deepOk f else shallowOk f) then .ok else .corrupt

/-- The world verify runs in: the file on disk plus whether some writer
currently holds the exclusive lock (spec section 5). -/
structure World where
  file : DiskFile
  lockHeld : Bool
deriving Repr, DecidableEq

/-- `Memvid::verify(&path, deep)` as a world operation (main.rs line 209):
it reads the file at the path and returns a report together with the
resulting world. -/
def verifyWorld (w : World) (deep : Bool) : VerifyStatus × World :=
  (verify w.file deep, w)

/-- Flip one byte of the stored content of one frame on disk, leaving ids
and stored checksums untouched. -/
def flipByte (pre post : List StoredFrame) (fr : StoredFrame) (i b : Nat) : DiskFile :=
  ⟨pre ++ ⟨fr.frame_id, fr.content.set i b, fr.stored_sum⟩ :: post⟩

/- ### Error taxonomy and CLI command embeddings -/

/-- Error taxonomy (spec section 7). -/
inductive Err
  | notFound
  | invalidInput
  | conflict
  | corruption
  | ioFailure
deriving Repr, DecidableEq

/-- The CLI search command's request (main.rs lines 138-150): fixed
`snippet_chars = 200`, no uri scope, no cursor, no as-of bound, sketch
enabled. -/
def mkSearchRequest (query : String) (top_k : Nat) : SearchRequest :=
  { query := query, top_k := top_k, snippet_chars := 200, uri := none,
    scope := none, cursor := none, as_of_frame := none, as_of_ts := none,
    no_sketch := false }

/-- The ingest command's title fallback (main.rs lines 119-123): the caller
title, else the file name, else "untitled". -/
def ingestTitle (title : Option String) (fileName : Option String) : String :=
  title.getD (fileName.getD ("untitled"))

/-- The CLI put command body after a successful open (main.rs lines 97-114):
build options, put the content bytes, commit, then report the sequence. -/
def runPutCmd (s : State) (content : String) (title uri : Option String) :
    State × Nat :=
  let r1 := put s (strBytes content) ⟨title, uri⟩
  let r2 := commit r1.1
  (r2.1, r1.2)

/-- The CLI ingest command body after a successful open and file read
(main.rs lines 116-134): build the title and `file://` uri, put the file
bytes, commit, then report the sequence. -/
def runIngestCmd (s : State) (fileContent : Bytes) (filePath : String)
    (fileName : Option String) (title : Option String) : State × Nat :=
  let file_title := ingestTitle title fileName
  let r1 := put s fileContent ⟨some file_title, some ("file://" ++ filePath)⟩
  let r2 := commit r1.1
  (r2.1, r1.2)

/-- The CLI timeline command's limit field (main.rs line 193):
`NonZeroU64::new(limit)` maps zero to `None`. -/
def mkTimelineLimit (limit : Nat) : Option Nat :=
  if limit = 0 then none else some limit

/-- Modelled from the spec (sections 4.5 and 7): the engine's timeline
operation; its query cannot carry a zero limit (`Option<NonZeroU64>`), and no
listed failure concerns an absent limit, so it answers every query. -/
def timelineOp (s : State) (q : TimelineQuery) : Except Err (List TimelineEntry) :=
  Except.ok (timeline s q)

/-- The CLI timeline command body after a successful open (main.rs lines
190-206): default query, limit from `NonZeroU64::new`, then run. -/
def runTimelineCmd (s : State) (limit : Nat) : Except Err (List TimelineEntry) :=
  timelineOp s { limit := mkTimelineLimit limit, as_of_frame := none }

/-- Mirror of `memvid_core::Stats` (main.rs lines 182-186). -/
structure Stats where
  frame_count : Nat
  has_lex_index : Bool
  has_vec_index : Bool
  has_time_index : Bool
deriving Repr, DecidableEq

/-- Render a verification status the way the CLI names it. -/
def statusName : VerifyStatus → String
  | .ok => "Ok"
  | .degraded => "Degraded"
  | .corrupt => "Corrupt"

/-- The create command (main.rs lines 91-95): each fallible engine call is a
parameter, `?` is the `Except` bind, and the success value is the printed
line. -/
def runCreateCLI (createR : Except Err State) : Except Err String := do
  let _ ← createR
  pure ("status ok")

/-- The put command (main.rs lines 97-114): open, put, commit, then print
the sequence. -/
def runPutCLI (openR : Except Err State)
    (putR : State → Except Err (State × Nat))
    (commitR : State → Except Err (State × List Nat)) : Except Err String := do
  let s ← openR
  let r ← putR s
  let _ ← commitR r.1
  pure ("sequence " ++ toString r.2)

/-- The ingest command (main.rs lines 116-134): open, read the file, put,
commit, then print the sequence. -/
def runIngestCLI (openR : Except Err State) (readR : Except Err Bytes)
    (putR : Bytes → State → Except Err (State × Nat))
    (commitR : State → Except Err (State × List Nat)) : Except Err String := do
  let s ← openR
  let content ← readR
  let r ← putR content s
  let _ ← commitR r.1
  pure ("sequence " ++ toString r.2)

/-- The search command (main.rs lines 136-174): open, search, then print the
hits. -/
def runSearchCLI (openR : Except Err State)
    (searchR : State → Except Err (List Hit)) : Except Err (List Hit) := do
  let s ← openR
  let response ← searchR s
  pure response

/-- The stats command (main.rs lines 176-188): open, stats, then print. -/
def runStatsCLI (openR : Except Err State)
    (statsR : State → Except Err Stats) : Except Err Stats := do
  let s ← openR
  let st ← statsR s
  pure st

/-- The timeline command (main.rs lines 190-206): open, timeline, then
print the entries. -/
def runTimelineCLI (openR : Except Err State)
    (timelineR : State → Except Err (List TimelineEntry)) :
    Except Err (List TimelineEntry) := do
  let s ← openR
  let entries ← timelineR s
  pure entries

/-- The verify command (main.rs lines 208-217): verify the path, then print
the status. -/
def runVerifyCLI (verifyR : Except Err VerifyStatus) : Except Err String := do
  let report ← verifyR
  pure (statusName report)

/- ### Helper lemmas for the frame log -/

theorem put_fst (s : State) (c : Bytes) (o : PutOptions) :
    (put s c o).1 = ⟨s.committed, s.pending ++ [(c, o)]⟩ := rfl

theorem putMany_pending (c : List Frame) (p xs : List (Bytes × PutOptions)) :
    putMany ⟨c, p⟩ xs = ⟨c, p ++ xs⟩ := by
  induction xs generalizing p with
  | nil => simp [putMany]
  | cons x xs ih =>
    simp only [putMany, List.foldl_cons] at *
    rw [put_fst]
    simpa using ih (p ++ [x])

theorem commitFrames_length (base : Nat) (ps : List (Bytes × PutOptions)) :
    (commitFrames base ps).length = ps.length := by
  induction ps generalizing base with
  | nil => rfl
  | cons x xs ih => simpa [commitFrames] using ih (base + 1)

theorem commitFrames_map_id (base : Nat) (ps : List (Bytes × PutOptions)) :
    (commitFrames base ps).map Frame.frame_id = List.range' base ps.length := by
  induction ps generalizing base with
  | nil => rfl
  | cons x xs ih => simpa [commitFrames, List.range'] using ih (base + 1)

theorem find?_commitFrames (ps : List (Bytes × PutOptions)) (base i : Nat)
    (hi : i < ps.length) :
    (commitFrames base ps).find? (fun f => f.frame_id == base + i) =
      some ⟨base + i, (ps.get ⟨i, hi⟩).1, (ps.get ⟨i, hi⟩).2.title,
        (ps.get ⟨i, hi⟩).2.uri⟩ := by
  induction ps generalizing base i with
  | nil => exact absurd hi (Nat.not_lt_zero i)
  | cons x xs ih =>
    cases i with
    | zero => simp [commitFrames, List.find?]
    | succ j =>
      have hj : j < xs.length := Nat.lt_of_succ_lt_succ hi
      have hne : (Frame.frame_id ⟨base, x.1, x.2.title, x.2.uri⟩ == base + (j + 1)) = false := by
        simp only [beq_eq_false_iff_ne, ne_eq]
        omega
      have := ih (base + 1) j hj
      simp only [commitFrames, List.find?, hne]
      rw [show base + (j + 1) = (base + 1) + j by omega]
      rw [this]
      simp

theorem find?_committed_none (s : State) (hwf : WF s) (fid : Nat)
    (hge : s.committed.length ≤ fid) :
    s.committed.find? (fun f => f.frame_id == fid) = none := by
  apply List.find?_eq_none.2
  intro f hf
  have hmem : f.frame_id ∈ s.committed.map Frame.frame_id := List.mem_map_of_mem _ hf
  rw [hwf] at hmem
  have hlt : f.frame_id < s.committed.length := List.mem_range.1 hmem
  simp only [beq_iff_eq]
  omega

theorem mem_commitFrames (base : Nat) (ps : List (Bytes × PutOptions))
    (c : Bytes) (o : PutOptions) (h : (c, o) ∈ ps) :
    ∃ f ∈ commitFrames base ps, f.content = c ∧ f.title = o.title ∧ f.uri = o.uri := by
  induction ps generalizing base with
  | nil => exact absurd h (List.not_mem_nil _)
  | cons x xs ih =>
    rcases List.mem_cons.1 h with h | h
    · subst h
      exact ⟨⟨base, c, o.title, o.uri⟩, List.mem_cons_self _ _, rfl, rfl, rfl⟩
    · obtain ⟨f, hf, hc⟩ := ih (base + 1) h
      exact ⟨f, List.mem_cons_of_mem _ hf, hc⟩

/- ### Claim C1 -/

/-- Claim C1: for every sequence of puts followed by a commit, every
resulting frame_id can be read back and the content returned is
byte-identical to the bytes that were supplied to put. -/
theorem claim1_put_commit_read_roundtrip (s : State)
    (xs : List (Bytes × PutOptions)) (hwf : WF s) (hp : s.pending = []) :
    ((commit (putMany s xs)).2.length = xs.length) ∧
    ∀ i (hi : i < xs.length), ∃ fid frame,
      ((commit (putMany s xs)).2)[i]? = some fid ∧
      read (commit (putMany s xs)).1 fid = some frame ∧
      frame.content = (xs.get ⟨i, hi⟩).1 := by
  obtain ⟨c, p⟩ := s
  have hp' : p = [] := hp
  subst hp'
  have hpm : putMany ⟨c, []⟩ xs = ⟨c, xs⟩ := by simpa using putMany_pending c [] xs
  rw [hpm]
  constructor
  · simp [commit, commitFrames_length]
  · intro i hi
    refine ⟨c.length + i,
      ⟨c.length + i, (xs.get ⟨i, hi⟩).1, (xs.get ⟨i, hi⟩).2.title,
        (xs.get ⟨i, hi⟩).2.uri⟩, ?_, ?_, rfl⟩
    · have hlen : i < xs.length := hi
      simp only [commit]
      rw [commitFrames_map_id]
      simpa using List.getElem?_range' c.length 1 hlen
    · simp only [commit, read]
      rw [List.find?_append]
      have h1 : c.find? (fun f => f.frame_id == c.length + i) = none := by
        exact find?_committed_none ⟨c, []⟩ hwf (c.length + i) (Nat.le_add_right _ _)
      rw [h1]
      simpa using find?_commitFrames xs c.length i hi

/-- Witness for claim C1: one put of the bytes [7, 8] into an empty memory,
committed and read back. -/
theorem claim1_witness :
    WF State.empty ∧ State.empty.pending = [] ∧ 0 < 1 ∧
    (∃ fid frame,
      ((commit (putMany State.empty [([7, 8], ⟨none, none⟩)])).2)[0]? = some fid ∧
      read (commit (putMany State.empty [([7, 8], ⟨none, none⟩)])).1 fid = some frame ∧
      frame.content = [7, 8]) :=
  ⟨rfl, rfl, Nat.zero_lt_one,
    (claim1_put_commit_read_roundtrip State.empty [([7, 8], ⟨none, none⟩)]
      rfl rfl).2 0 Nat.zero_lt_one⟩

/- ### Claim C2 -/

/-- Claim C2: commit must be called to make prior puts visible (a put alone
leaves the committed log untouched), and the CLI put and ingest commands
each call put followed by commit before reporting success, so their content
is committed - durable and visible - in the resulting state, with nothing
left pending. -/
theorem claim2_cli_put_ingest_commit (s : State) (content : String)
    (title uri : Option String) (fileContent : Bytes) (filePath : String)
    (fileName : Option String) :
    ((put s (strBytes content) ⟨title, uri⟩).1.committed = s.committed) ∧
    ((runPutCmd s content title uri).1.pending = [] ∧
      ∃ f ∈ (runPutCmd s content title uri).1.committed,
        f.content = strBytes content) ∧
    ((runIngestCmd s fileContent filePath fileName title).1.pending = [] ∧
      ∃ f ∈ (runIngestCmd s fileContent filePath fileName title).1.committed,
        f.content = fileContent) := by
  refine ⟨rfl, ⟨rfl, ?_⟩, ⟨rfl, ?_⟩⟩
  · have hmem : (strBytes content, (⟨title, uri⟩ : PutOptions)) ∈
        s.pending ++ [(strBytes content, ⟨title, uri⟩)] :=
      List.mem_append_right _ (List.mem_singleton.2 rfl)
    obtain ⟨f, hf, hc, _, _⟩ :=
      mem_commitFrames s.committed.length _ _ _ hmem
    exact ⟨f, List.mem_append_right _ hf, hc⟩
  · have hmem : (fileContent,
        (⟨some (ingestTitle title fileName), some ("file://" ++ filePath)⟩ : PutOptions)) ∈
        s.pending ++ [(fileContent,
          ⟨some (ingestTitle title fileName), some ("file://" ++ filePath)⟩)] :=
      List.mem_append_right _ (List.mem_singleton.2 rfl)
    obtain ⟨f, hf, hc, _, _⟩ :=
      mem_commitFrames s.committed.length _ _ _ hmem
    exact ⟨f, List.mem_append_right _ hf, hc⟩

/- ### Claim C9 -/

/-- Claim C9: the ingest command stores a frame whose uri is exactly
"file://" followed by the ingested file's path, and whose title is the
caller-supplied title when given, otherwise the file's name, otherwise
"untitled". -/
theorem claim9_ingest_uri_title (s : State) (fileContent : Bytes)
    (filePath : String) (fileName : Option String) (title : Option String) :
    (∃ f ∈ (runIngestCmd s fileContent filePath fileName title).1.committed,
      f.content = fileContent ∧
      f.uri = some ("file://" ++ filePath) ∧
      f.title = some (ingestTitle title fileName)) ∧
    (∀ t, ingestTitle (some t) fileName = t) ∧
    (∀ n, ingestTitle none (some n) = n) ∧
    ingestTitle none none = "untitled" := by
  refine ⟨?_, fun t => rfl, fun n => rfl, rfl⟩
  have hmem : (fileContent,
      (⟨some (ingestTitle title fileName), some ("file://" ++ filePath)⟩ : PutOptions)) ∈
      s.pending ++ [(fileContent,
        ⟨some (ingestTitle title fileName), some ("file://" ++ filePath)⟩)] :=
    List.mem_append_right _ (List.mem_singleton.2 rfl)
  obtain ⟨f, hf, hc, ht, hu⟩ :=
    mem_commitFrames s.committed.length _ _ _ hmem
  exact ⟨f, List.mem_append_right _ hf, hc, hu, ht⟩

/- ### Claim C3 -/

theorem sum_set (l : Bytes) (i b : Nat) (h : i < l.length) :
    (l.set i b).sum + l.get ⟨i, h⟩ = l.sum + b := by
  induction l generalizing i with
  | nil => simp at h
  | cons x xs ih =>
    cases i with
    | zero =>
      simp only [List.set, List.get, List.sum_cons]
      omega
    | succ j =>
      have hj : j < xs.length := Nat.lt_of_succ_lt_succ h
      have := ih j hj
      simp only [List.set, List.get, List.sum_cons]
      omega

theorem checksum_set_ne (l : Bytes) (i b : Nat) (h : i < l.length)
    (hne : b ≠ l.get ⟨i, h⟩) : checksum (l.set i b) ≠ checksum l := by
  intro heq
  have hsum := sum_set l i b h
  unfold checksum at heq
  omega

/-- Claim C3: flipping one byte of a committed frame's stored content on disk
makes deep verification report corrupt while shallow verification on the very
same file still reports ok, both at once. -/
theorem claim3_byte_flip_deep_corrupt_shallow_ok (pre post : List StoredFrame)
    (fr : StoredFrame) (i b : Nat)
    (hok : deepOk ⟨pre ++ fr :: post⟩ = true)
    (hi : i < fr.content.length)
    (hne : b ≠ fr.content.get ⟨i, hi⟩) :
    verify (flipByte pre post fr i b) true = .corrupt ∧
    verify (flipByte pre post fr i b) false = .ok := by
  unfold deepOk at hok
  rw [Bool.and_eq_true] at hok
  obtain ⟨hsh, hall⟩ := hok
  have hshallow : shallowOk (flipByte pre post fr i b) = true := by
    unfold shallowOk flipByte at *
    simpa using hsh
  have hfr : checksum fr.content = fr.stored_sum := by
    have := List.all_eq_true.1 hall fr
      (List.mem_append_right _ (List.mem_cons_self _ _))
    exact beq_iff_eq.1 this
  have hflip : checksum (fr.content.set i b) ≠ fr.stored_sum := by
    rw [← hfr]
    exact checksum_set_ne fr.content i b hi hne
  have hdeep : deepOk (flipByte pre post fr i b) = false := by
    cases hall2 : deepOk (flipByte pre post fr i b) with
    | false => rfl
    | true =>
      exfalso
      unfold deepOk at hall2
      rw [Bool.and_eq_true] at hall2
      obtain ⟨_, hall3⟩ := hall2
      have hmem : (⟨fr.frame_id, fr.content.set i b, fr.stored_sum⟩ : StoredFrame) ∈
          (flipByte pre post fr i b).frames :=
        List.mem_append_right _ (List.mem_cons_self _ _)
      have := List.all_eq_true.1 hall3 _ hmem
      exact hflip (beq_iff_eq.1 this)
  constructor
  · simp [verify, hdeep]
  · simp [verify, hshallow]

/-- Witness for claim C3: a single committed frame with content [1, 2, 3]
and a matching stored checksum, with byte 1 flipped to 9. -/
theorem claim3_witness :
    deepOk ⟨[] ++ (⟨0, [1, 2, 3], 6⟩ : StoredFrame) :: []⟩ = true ∧
    1 < ([1, 2, 3] : Bytes).length ∧
    9 ≠ ([1, 2, 3] : Bytes).get ⟨1, by decide⟩ ∧
    (verify (flipByte [] [] ⟨0, [1, 2, 3], 6⟩ 1 9) true = .corrupt ∧
      verify (flipByte [] [] ⟨0, [1, 2, 3], 6⟩ 1 9) false = .ok) :=
  ⟨by decide, by decide, by decide,
    claim3_byte_flip_deep_corrupt_shallow_ok [] [] ⟨0, [1, 2, 3], 6⟩ 1 9
      (by decide) (by decide) (by decide)⟩

/- ### Claim C4 -/

theorem mem_applyUri (u : Option String) (fs : List Frame) (f : Frame)
    (h : f ∈ applyUri u fs) : f ∈ fs := by
  cases u with
  | none => exact h
  | some x => exact List.mem_of_mem_filter h

theorem mem_applyAsOf_le (N : Nat) (fs : List Frame) (f : Frame)
    (h : f ∈ applyAsOf (some N) fs) : f.frame_id ≤ N := by
  have := (List.mem_filter.1 h).2
  exact of_decide_eq_true this

theorem search_mem_structure (s : State) (req : SearchRequest) (h : Hit)
    (hh : h ∈ search s req) :
    ∃ f ∈ applyUri req.uri (applyAsOf req.as_of_frame s.committed),
      h.frame_id = f.frame_id ∧ h.text = f.content.take req.snippet_chars := by
  unfold search at hh
  have h1 := List.take_subset _ _ hh
  have h2 := (List.perm_insertionSort hitLE _).mem_iff.1 h1
  obtain ⟨f, hf, hEq⟩ := List.mem_map.1 h2
  exact ⟨f, List.mem_of_mem_filter hf, by rw [← hEq], by rw [← hEq]⟩

theorem timeline_mem_structure (s : State) (q : TimelineQuery) (e : TimelineEntry)
    (he : e ∈ timeline s q) :
    ∃ f ∈ applyAsOf q.as_of_frame s.committed, e.frame_id = f.frame_id := by
  unfold timeline at he
  have h1 : e ∈ ((applyAsOf q.as_of_frame s.committed).reverse).map
      (fun f => TimelineEntry.mk f.frame_id f.uri f.content) := by
    cases hq : q.limit with
    | none => rw [hq] at he; exact he
    | some k => rw [hq] at he; exact List.take_subset _ _ he
  obtain ⟨f, hf, hEq⟩ := List.mem_map.1 h1
  exact ⟨f, List.mem_reverse.1 hf, by rw [← hEq]⟩

/-- Claim C4: a search or timeline query with as_of_frame = N excludes every
frame whose frame_id is greater than N from the results - every returned hit
or entry has frame_id at most N, whatever its rank would have been. -/
theorem claim4_as_of_excludes_later_frames (s : State) (req : SearchRequest)
    (q : TimelineQuery) (N : Nat) :
    (req.as_of_frame = some N → ∀ h ∈ search s req, h.frame_id ≤ N) ∧
    (q.as_of_frame = some N → ∀ e ∈ timeline s q, e.frame_id ≤ N) := by
  constructor
  · intro hb h hh
    obtain ⟨f, hf, hid, _⟩ := search_mem_structure s req h hh
    rw [hb] at hf
    rw [hid]
    exact mem_applyAsOf_le N _ f (mem_applyUri req.uri _ f hf)
  · intro hb e he
    obtain ⟨f, hf, hid⟩ := timeline_mem_structure s q e he
    rw [hb] at hf
    rw [hid]
    exact mem_applyAsOf_le N _ f hf

/-- Witness for claim C4: a two-frame store queried with as_of_frame = 0. -/
theorem claim4_witness :
    ((mkSearchRequest "fox" 10 : SearchRequest).as_of_frame = none) ∧
    (({ query := "fox", top_k := 10, snippet_chars := 200, uri := none,
        scope := none, cursor := none, as_of_frame := some 0, as_of_ts := none,
        no_sketch := false } : SearchRequest).as_of_frame = some 0 ∧
      ∀ h ∈ search ⟨[⟨0, [102], none, none⟩, ⟨1, [102], none, none⟩], []⟩
        { query := "fox", top_k := 10, snippet_chars := 200, uri := none,
          scope := none, cursor := none, as_of_frame := some 0, as_of_ts := none,
          no_sketch := false }, h.frame_id ≤ 0) ∧
    (({ limit := some 5, as_of_frame := some 0 } : TimelineQuery).as_of_frame = some 0 ∧
      ∀ e ∈ timeline ⟨[⟨0, [102], none, none⟩, ⟨1, [102], none, none⟩], []⟩
        { limit := some 5, as_of_frame := some 0 }, e.frame_id ≤ 0) :=
  ⟨rfl,
    ⟨rfl, (claim4_as_of_excludes_later_frames
      ⟨[⟨0, [102], none, none⟩, ⟨1, [102], none, none⟩], []⟩
      { query := "fox", top_k := 10, snippet_chars := 200, uri := none,
        scope := none, cursor := none, as_of_frame := some 0, as_of_ts := none,
        no_sketch := false }
      { limit := some 5, as_of_frame := some 0 } 0).1 rfl⟩,
    ⟨rfl, (claim4_as_of_excludes_later_frames
      ⟨[⟨0, [102], none, none⟩, ⟨1, [102], none, none⟩], []⟩
      { query := "fox", top_k := 10, snippet_chars := 200, uri := none,
        scope := none, cursor := none, as_of_frame := some 0, as_of_ts := none,
        no_sketch := false }
      { limit := some 5, as_of_frame := some 0 } 0).2 rfl⟩⟩

/- ### Claim C5 -/

/-- Counterexample to claim C5: on a two-frame store, the CLI timeline
command invoked with limit 0 does not fail with InvalidInput - the zero is
mapped to an absent limit by `NonZeroU64::new` (main.rs line 193) and the
query succeeds, returning all entries. -/
theorem claim5_counterexample :
    runTimelineCmd ⟨[⟨0, [1], none, none⟩, ⟨1, [2], none, none⟩], []⟩ 0 =
      Except.ok [⟨1, none, [2]⟩, ⟨0, none, [1]⟩] ∧
    runTimelineCmd ⟨[⟨0, [1], none, none⟩, ⟨1, [2], none, none⟩], []⟩ 0 ≠
      Except.error Err.invalidInput := by
  constructor
  · rfl
  · intro h
    rw [show runTimelineCmd ⟨[⟨0, [1], none, none⟩, ⟨1, [2], none, none⟩], []⟩ 0 =
      Except.ok [⟨1, none, [2]⟩, ⟨0, none, [1]⟩] from rfl] at h
    exact Except.noConfusion h

/-- Claim C5 (amended): a CLI timeline invocation whose limit parameter is
zero is accepted, not rejected: the zero is substituted by an absent limit
(`NonZeroU64::new(0)` is `None`), and the query runs as the default
no-explicit-limit query. -/
theorem claim5_amended_zero_limit_accepted (s : State) :
    mkTimelineLimit 0 = none ∧
    runTimelineCmd s 0 =
      Except.ok (timeline s { limit := none, as_of_frame := none }) :=
  ⟨rfl, rfl⟩

/- ### Claim C6 -/

/-- Claim C6: lexical search scoring is deterministic given the index
contents - the identical request against an unchanged store returns the
identical hit list - and the returned hits are ranked so that every earlier
hit either has a strictly greater score, or an equal score and a
greater-or-equal frame_id: ties are broken by descending frame_id. -/
theorem claim6_search_deterministic_sorted (s : State) (req : SearchRequest) :
    search s req = search s req ∧ List.Sorted hitLE (search s req) := by
  refine ⟨rfl, ?_⟩
  unfold search
  have hs : List.Pairwise hitLE (List.insertionSort hitLE
      (((applyUri req.uri (applyAsOf req.as_of_frame s.committed)).filter
          (fun f => decide (0 < scoreFrame s (tokenize (strBytes req.query)) f))).map
        (fun f => Hit.mk f.frame_id f.title
          (scoreFrame s (tokenize (strBytes req.query)) f)
          (f.content.take req.snippet_chars) f.uri))) :=
    List.sorted_insertionSort hitLE _
  exact hs.sublist (List.take_sublist _ _)

/- ### Claim C7 -/

/-- Claim C7: verify operates on the file at a path rather than an open
handle, requires no exclusive write access - its report is identical whether
or not a writer holds the lock - and is strictly read-only: it leaves the
world, in particular the file contents, unchanged. -/
theorem claim7_verify_read_only (w w2 : World) (deep : Bool)
    (hfile : w.file = w2.file) :
    (verifyWorld w deep).2 = w ∧
    (verifyWorld w deep).1 = (verifyWorld w2 deep).1 := by
  refine ⟨rfl, ?_⟩
  simp only [verifyWorld, hfile]

/-- Witness for claim C7: verifying the empty file with the lock free and
with the lock held by a writer. -/
theorem claim7_witness :
    (⟨⟨[]⟩, false⟩ : World).file = (⟨⟨[]⟩, true⟩ : World).file ∧
    ((verifyWorld ⟨⟨[]⟩, false⟩ true).2 = ⟨⟨[]⟩, false⟩ ∧
      (verifyWorld ⟨⟨[]⟩, false⟩ true).1 = (verifyWorld ⟨⟨[]⟩, true⟩ true).1) :=
  ⟨rfl, claim7_verify_read_only ⟨⟨[]⟩, false⟩ ⟨⟨[]⟩, true⟩ true rfl⟩

/- ### Claim C8 -/

/-- Claim C8: every CLI search invocation submits a request with
snippet_chars = 200, no_sketch = false, and no uri scope, cursor, or as-of
bound; and every hit's snippet is at most snippet_chars = 200 long. -/
theorem claim8_cli_search_request (q : String) (k : Nat) (s : State) :
    (mkSearchRequest q k).snippet_chars = 200 ∧
    (mkSearchRequest q k).no_sketch = false ∧
    (mkSearchRequest q k).uri = none ∧
    (mkSearchRequest q k).scope = none ∧
    (mkSearchRequest q k).cursor = none ∧
    (mkSearchRequest q k).as_of_frame = none ∧
    (mkSearchRequest q k).as_of_ts = none ∧
    ∀ h ∈ search s (mkSearchRequest q k), h.text.length ≤ 200 := by
  refine ⟨rfl, rfl, rfl, rfl, rfl, rfl, rfl, ?_⟩
  intro h hh
  obtain ⟨f, _, _, htext⟩ := search_mem_structure s (mkSearchRequest q k) h hh
  rw [htext]
  exact List.length_take_le _ _

/-- Witness for claim C8: a one-frame store whose single hit for the query
"f" has a one-byte snippet. -/
theorem claim8_witness :
    (⟨0, none, 1, [102], none⟩ : Hit) ∈
      search ⟨[⟨0, [102], none, none⟩], []⟩ (mkSearchRequest "f" 10) ∧
    (⟨0, none, 1, [102], none⟩ : Hit).text.length ≤ 200 :=
  ⟨by decide,
    (claim8_cli_search_request "f" 10 ⟨[⟨0, [102], none, none⟩], []⟩).2.2.2.2.2.2.2
      ⟨0, none, 1, [102], none⟩ (by decide)⟩

/- ### Claim C10 -/

/-- Claim C10: for every CLI command, if any engine operation (create, open,
put, commit, search, stats, timeline, verify) or the ingest file read fails,
the command propagates that error unchanged as its result - so no success
output is printed, the success value existing only in the ok case.  Each
conjunct places the failure at one stage of one command, with every earlier
stage succeeding and later stages arbitrary. -/
theorem claim10_cli_propagates_errors (e : Err) (s : State) (pr : State × Nat)
    (b : Bytes)
    (putR : State → Except Err (State × Nat))
    (putIR : Bytes → State → Except Err (State × Nat))
    (commitR : State → Except Err (State × List Nat))
    (readR : Except Err Bytes)
    (searchR : State → Except Err (List Hit))
    (statsR : State → Except Err Stats)
    (timelineR : State → Except Err (List TimelineEntry)) :
    (runCreateCLI (Except.error e) = Except.error e) ∧
    (runPutCLI (Except.error e) putR commitR = Except.error e ∧
      runPutCLI (Except.ok s) (fun _ => Except.error e) commitR = Except.error e ∧
      runPutCLI (Except.ok s) (fun _ => Except.ok pr)
        (fun _ => Except.error e) = Except.error e) ∧
    (runIngestCLI (Except.error e) readR putIR commitR = Except.error e ∧
      runIngestCLI (Except.ok s) (Except.error e) putIR commitR = Except.error e ∧
      runIngestCLI (Except.ok s) (Except.ok b) (fun _ _ => Except.error e)
        commitR = Except.error e ∧
      runIngestCLI (Except.ok s) (Except.ok b) (fun _ _ => Except.ok pr)
        (fun _ => Except.error e) = Except.error e) ∧
    (runSearchCLI (Except.error e) searchR = Except.error e ∧
      runSearchCLI (Except.ok s) (fun _ => Except.error e) = Except.error e) ∧
    (runStatsCLI (Except.error e) statsR = Except.error e ∧
      runStatsCLI (Except.ok s) (fun _ => Except.error e) = Except.error e) ∧
    (runTimelineCLI (Except.error e) timelineR = Except.error e ∧
      runTimelineCLI (Except.ok s) (fun _ => Except.error e) = Except.error e) ∧
    (runVerifyCLI (Except.error e) = Except.error e) :=
  ⟨rfl, ⟨rfl, rfl, rfl⟩, ⟨rfl, rfl, rfl, rfl⟩, ⟨rfl, rfl⟩, ⟨rfl, rfl⟩,
    ⟨rfl, rfl⟩, rfl⟩

end Memvid
